import Mathlib

set_option autoImplicit false

namespace StorjSpec

/-- Raw byte strings (Go `[]byte`) are modelled as lists of naturals. -/
abbrev Bytes := List Nat

/-- Public keys as seen by `NodeIDFromKey` (identity.go:161-167): either an
ECDSA public key (the single supported curve), abstracted by an index into
the space of keys, or a key of any other type, abstracted by a tag. -/
inductive PublicKey where
  | ecdsa (k : Nat)
  | other (tag : Nat)
  deriving DecidableEq, Repr

/-- An x509 certificate as used by the claims: its `Raw` byte form and its
public key.  Signature checking is delegated to the environment
(`Env.checkSignatureFrom`), mirroring Go `x509.Certificate.CheckSignatureFrom`. -/
structure Certificate where
  raw : Bytes
  pubKey : PublicKey
  deriving DecidableEq, Repr

/-- Junk certificate used as the default of `List.getD`; Go panics on an
out-of-range index, and every theorem below carries hypotheses keeping
indices in range, so this default is never observable. -/
def dfltCert : Certificate := { raw := [], pubKey := PublicKey.other 0 }

/-- storj.NodeID: a fixed-size node identifier (§3 of the spec: 32 bytes,
byte-exact equality). -/
structure NodeID where
  bytes : Bytes
  deriving DecidableEq, Repr

/-- The Go zero value `storj.NodeID{}`: 32 zero bytes. -/
def NodeID.zero : NodeID := { bytes := List.replicate 32 0 }

/-- Modelled from the spec: `storj.NodeID.String` (pkg/storj, not under src/)
is the canonical human-readable encoding of a NodeID; per §3 equality of
NodeIDs is byte-exact and the encoding is injective, so it is modelled as the
identity on the underlying bytes. -/
def NodeID.encode (n : NodeID) : Bytes := n.bytes

/-- Error values produced by the embedded operations.  Constructors mirror
the distinct error classes of the source: `errs.Wrap`, `ErrChainLength`,
the key-parse error of `FullIdentityFromPEM`, `storj.ErrNodeID` (invalid key
type / wrap of a marshalling failure / bad byte length), the peer mismatch of
`verifyIdentity`, and the verify-command errors (which record the `errFmt`
tag and, for positional mismatches, the index pair).  `external` stands for
errors produced by abstract environment functions. -/
inductive GoErr where
  | wrapped (inner : GoErr)
  | chainLength
  | keyParse (inner : GoErr)
  | nodeIDKeyType (tag : Nat)
  | nodeIDWrap (inner : GoErr)
  | nodeIDLength (n : Nat)
  | peerMismatch
  | emptyChain
  | verifyLen (fmt : String)
  | verifyIdx (fmt : String) (j i : Nat)
  | sigFrom (fmt : String) (inner : GoErr)
  | external (code : Nat)
  deriving DecidableEq, Repr

/-- The environment bundles the external primitives the source calls:
`sha256` and `marshalPKIX` model the Go standard library
(`crypto/sha256.Sum256`, `x509.MarshalPKIXPublicKey`);
`decodeAndParseChainPEM` and `decodePEM` model the PEM codec of
pkg/identity/pkg/peertls (repository code not under src/, described by §4.3
of the spec); `parseECPrivateKey` models `x509.ParseECPrivateKey`;
`checkSignatureFrom` models `x509.Certificate.CheckSignatureFrom`
(`none` means the signature verifies). -/
structure Env where
  sha256 : Bytes → Bytes
  marshalPKIX : Nat → Except GoErr Bytes
  decodeAndParseChainPEM : Bytes → Except GoErr (List Certificate)
  decodePEM : Bytes → Except GoErr (List Bytes)
  parseECPrivateKey : Bytes → Except GoErr Nat
  checkSignatureFrom : Certificate → Certificate → Option GoErr

instance exceptDecidableEq {ε α : Type} [DecidableEq ε] [DecidableEq α] :
    DecidableEq (Except ε α) := fun a b =>
  match a, b with
  | Except.ok x, Except.ok y =>
    if h : x = y then isTrue (by rw [h])
    else isFalse (fun hh => h (Except.ok.inj hh))
  | Except.ok _, Except.error _ => isFalse (fun hh => Except.noConfusion hh)
  | Except.error _, Except.ok _ => isFalse (fun hh => Except.noConfusion hh)
  | Except.error x, Except.error y =>
    if h : x = y then isTrue (by rw [h])
    else isFalse (fun hh => h (Except.error.inj hh))

/-- Modelled from the spec: `storj.NodeIDFromBytes` (pkg/storj, not under
src/); per §3 a NodeID is exactly 32 bytes. -/
def NodeIDFromBytes (b : Bytes) : Except GoErr NodeID :=
  if b.length = 32 then Except.ok { bytes := b }
  else Except.error (GoErr.nodeIDLength b.length)

/-- identity.go:169-179 `NodeIDFromECDSAKey`: id = sha256(sha256(pkix(k))). -/
def NodeIDFromECDSAKey (env : Env) (k : Nat) : Except GoErr NodeID :=
  match env.marshalPKIX k with
  | Except.error e => Except.error (GoErr.nodeIDWrap e)
  | Except.ok kb =>
    let mid := env.sha256 kb
    let fin := env.sha256 mid
    NodeIDFromBytes fin

/-- identity.go:161-167 `NodeIDFromKey`: dispatch on the dynamic key type. -/
def NodeIDFromKey (env : Env) (k : PublicKey) : Except GoErr NodeID :=
  match k with
  | PublicKey.ecdsa ek => NodeIDFromECDSAKey env ek
  | PublicKey.other tag => Except.error (GoErr.nodeIDKeyType tag)

/-- C1: for every ECDSA public key whose PKIX encoding exists, NodeIDFromKey
returns exactly the 32-byte double SHA-256 of that encoding; the function is
deterministic (it is a pure function of its arguments); and every key of a
non-ECDSA type is rejected with an error rather than a crash. -/
theorem nodeIDFromKey_spec (env : Env) (k : Nat) (kb : Bytes) (tag : Nat)
    (hm : env.marshalPKIX k = Except.ok kb)
    (hlen : (env.sha256 (env.sha256 kb)).length = 32) :
    NodeIDFromKey env (PublicKey.ecdsa k)
        = Except.ok { bytes := env.sha256 (env.sha256 kb) }
    ∧ NodeIDFromKey env (PublicKey.ecdsa k) = NodeIDFromKey env (PublicKey.ecdsa k)
    ∧ NodeIDFromKey env (PublicKey.other tag)
        = Except.error (GoErr.nodeIDKeyType tag) := by
  refine ⟨?_, rfl, rfl⟩
  simp [NodeIDFromKey, NodeIDFromECDSAKey, hm, NodeIDFromBytes, hlen]

/-- A concrete environment for evaluating the definitions on closed inputs. -/
def testEnv : Env where
  sha256 := fun _ => List.replicate 32 1
  marshalPKIX := fun k => Except.ok [k]
  decodeAndParseChainPEM := fun _ => Except.ok []
  decodePEM := fun _ => Except.ok [[0]]
  parseECPrivateKey := fun _ => Except.ok 0
  checkSignatureFrom := fun _ _ => none

theorem nodeIDFromKey_spec_witness :
    NodeIDFromKey testEnv (PublicKey.ecdsa 7)
        = Except.ok { bytes := List.replicate 32 1 }
    ∧ NodeIDFromKey testEnv (PublicKey.ecdsa 7) = NodeIDFromKey testEnv (PublicKey.ecdsa 7)
    ∧ NodeIDFromKey testEnv (PublicKey.other 3)
        = Except.error (GoErr.nodeIDKeyType 3) :=
  nodeIDFromKey_spec testEnv 7 [7] 3 rfl (by decide)

/-- Modelled from the spec (§3, chain ordering invariant): peertls.LeafIndex
(pkg/peertls, not under src/): index 0 of a chain is the leaf. -/
def LeafIndex : Nat := 0

/-- Modelled from the spec (§3, chain ordering invariant): peertls.CAIndex
(pkg/peertls, not under src/): index 1 of a chain is the CA. -/
def CAIndex : Nat := 1

/-- identity.go:43-56 `FullIdentity` (field order as in the source). -/
structure FullIdentity where
  restChain : List Certificate
  ca : Certificate
  leaf : Certificate
  id : NodeID
  key : Nat
  deriving DecidableEq, Repr

/-- identity.go:31-41 `PeerIdentity`. -/
structure PeerIdentity where
  restChain : List Certificate
  ca : Certificate
  leaf : Certificate
  id : NodeID
  deriving DecidableEq, Repr

/-- identity.go:74-106 `FullIdentityFromPEM`.  Go indexes `keysBytes[0]`
without a bounds check (a decode yielding zero blocks would panic); the
`getD` default is only reached in that out-of-model case. -/
def FullIdentityFromPEM (env : Env) (chainPEM keyPEM : Bytes) :
    Except GoErr FullIdentity :=
  match env.decodeAndParseChainPEM chainPEM with
  | Except.error e => Except.error (GoErr.wrapped e)
  | Except.ok chain =>
    if chain.length < CAIndex + 1 then
      Except.error GoErr.chainLength
    else
      match env.decodePEM keyPEM with
      | Except.error e => Except.error (GoErr.wrapped e)
      | Except.ok keysBytes =>
        match env.parseECPrivateKey (keysBytes.getD 0 []) with
        | Except.error e => Except.error (GoErr.keyParse e)
        | Except.ok key =>
          match NodeIDFromKey env (chain.getD CAIndex dfltCert).pubKey with
          | Except.error e => Except.error e
          | Except.ok nodeID =>
            Except.ok
              { restChain := chain.drop (CAIndex + 1)
                ca := chain.getD CAIndex dfltCert
                leaf := chain.getD LeafIndex dfltCert
                key := key
                id := nodeID }

/-- identity.go:121-134 `PeerIdentityFromCerts`. -/
def PeerIdentityFromCerts (env : Env) (leaf ca : Certificate)
    (rest : List Certificate) : Except GoErr PeerIdentity :=
  match NodeIDFromKey env ca.pubKey with
  | Except.error e => Except.error e
  | Except.ok i =>
    Except.ok { restChain := rest, ca := ca, id := i, leaf := leaf }

/-- C2: FullIdentityFromPEM fails with the ChainLength error when the decoded
chain has fewer than 2 certificates; on a chain of length at least 2 with a
parsable first key block it returns Leaf = chain[0], CA = chain[1],
RestChain = chain[2:], ID = NodeIDFromKey(chain[1].PublicKey); and malformed
chain or key bytes (decoder or key-parser failure) produce a parse error. -/
theorem fullIdentityFromPEM_spec (env : Env) (chainPEM keyPEM : Bytes)
    (chain : List Certificate) (kb : Bytes) (ks : List Bytes) (key : Nat)
    (nid : NodeID) (e : GoErr) :
    (env.decodeAndParseChainPEM chainPEM = Except.ok chain → chain.length < 2 →
      FullIdentityFromPEM env chainPEM keyPEM = Except.error GoErr.chainLength)
    ∧ (env.decodeAndParseChainPEM chainPEM = Except.ok chain → 2 ≤ chain.length →
        env.decodePEM keyPEM = Except.ok (kb :: ks) →
        env.parseECPrivateKey kb = Except.ok key →
        NodeIDFromKey env (chain.getD 1 dfltCert).pubKey = Except.ok nid →
        FullIdentityFromPEM env chainPEM keyPEM =
          Except.ok
            { restChain := chain.drop 2
              ca := chain.getD 1 dfltCert
              leaf := chain.getD 0 dfltCert
              key := key
              id := nid })
    ∧ (env.decodeAndParseChainPEM chainPEM = Except.error e →
        FullIdentityFromPEM env chainPEM keyPEM = Except.error (GoErr.wrapped e))
    ∧ (env.decodeAndParseChainPEM chainPEM = Except.ok chain → 2 ≤ chain.length →
        env.decodePEM keyPEM = Except.error e →
        FullIdentityFromPEM env chainPEM keyPEM = Except.error (GoErr.wrapped e))
    ∧ (env.decodeAndParseChainPEM chainPEM = Except.ok chain → 2 ≤ chain.length →
        env.decodePEM keyPEM = Except.ok (kb :: ks) →
        env.parseECPrivateKey kb = Except.error e →
        FullIdentityFromPEM env chainPEM keyPEM = Except.error (GoErr.keyParse e)) := by
  refine ⟨?_, ?_, ?_, ?_, ?_⟩
  · intro hc hlt
    simp [FullIdentityFromPEM, hc, CAIndex, hlt]
  · intro hc hge hk hp hn
    simp only [List.getD_eq_getElem?_getD] at hn
    simp [FullIdentityFromPEM, hc, CAIndex, LeafIndex, Nat.not_lt.mpr hge, hk, hp, hn]
  · intro hc
    simp [FullIdentityFromPEM, hc]
  · intro hc hge hk
    simp [FullIdentityFromPEM, hc, CAIndex, Nat.not_lt.mpr hge, hk]
  · intro hc hge hk hp
    simp [FullIdentityFromPEM, hc, CAIndex, Nat.not_lt.mpr hge, hk, hp]

/-- A second concrete environment whose chain decoder yields a two-element
chain, for evaluating `FullIdentityFromPEM` on closed inputs. -/
def testEnv2 : Env where
  sha256 := fun _ => List.replicate 32 1
  marshalPKIX := fun k => Except.ok [k]
  decodeAndParseChainPEM := fun _ =>
    Except.ok [{ raw := [0], pubKey := PublicKey.other 0 },
               { raw := [1], pubKey := PublicKey.ecdsa 2 }]
  decodePEM := fun _ => Except.ok [[9]]
  parseECPrivateKey := fun _ => Except.ok 5
  checkSignatureFrom := fun _ _ => none

theorem fullIdentityFromPEM_spec_witness :
    FullIdentityFromPEM testEnv2 [] [] =
      Except.ok
        { restChain := []
          ca := { raw := [1], pubKey := PublicKey.ecdsa 2 }
          leaf := { raw := [0], pubKey := PublicKey.other 0 }
          key := 5
          id := { bytes := List.replicate 32 1 } } :=
  (fullIdentityFromPEM_spec testEnv2 [] []
      [{ raw := [0], pubKey := PublicKey.other 0 },
       { raw := [1], pubKey := PublicKey.ecdsa 2 }]
      [9] [] 5 { bytes := List.replicate 32 1 } GoErr.chainLength).2.1
    rfl (by decide) rfl rfl (by decide)

/-- C8: loading an identity from PEM uses only the first decoded key block:
the result is unchanged when the key decoder is replaced by one returning
just that first block, so extra key blocks are ignored and never reported as
an error. -/
theorem fullIdentityFromPEM_first_key_spec (env : Env) (chainPEM keyPEM kb : Bytes)
    (rest : List Bytes)
    (h : env.decodePEM keyPEM = Except.ok (kb :: rest)) :
    FullIdentityFromPEM env chainPEM keyPEM =
      FullIdentityFromPEM
        { env with decodePEM := fun b => if b = keyPEM then Except.ok [kb] else env.decodePEM b }
        chainPEM keyPEM := by
  simp only [FullIdentityFromPEM, h, if_pos rfl, List.getD]
  rfl

/-- A third concrete environment whose key decoder yields two key blocks. -/
def testEnv3 : Env where
  sha256 := fun _ => List.replicate 32 1
  marshalPKIX := fun k => Except.ok [k]
  decodeAndParseChainPEM := fun _ =>
    Except.ok [{ raw := [0], pubKey := PublicKey.other 0 },
               { raw := [1], pubKey := PublicKey.ecdsa 2 }]
  decodePEM := fun _ => Except.ok [[3], [4]]
  parseECPrivateKey := fun _ => Except.ok 5
  checkSignatureFrom := fun _ _ => none

theorem fullIdentityFromPEM_first_key_spec_witness :
    FullIdentityFromPEM testEnv3 [] [] =
      FullIdentityFromPEM
        { testEnv3 with
            decodePEM := fun b => if b = ([] : Bytes) then Except.ok [[3]] else testEnv3.decodePEM b }
        [] [] :=
  fullIdentityFromPEM_first_key_spec testEnv3 [] [] [3] [[4]] rfl

/-- C10: PeerIdentityFromCerts performs no signature or chain validation: for
every leaf, CA and rest (with no relation between them) it succeeds with
Leaf = leaf, CA = ca, RestChain = rest and ID derived from the CA key
whenever the CA key is ECDSA (with its PKIX encoding defined), and its only
failure mode is NodeID derivation rejecting a non-ECDSA CA key. -/
theorem peerIdentityFromCerts_spec (env : Env) (leaf ca : Certificate)
    (rest : List Certificate) (k : Nat) (kb : Bytes) :
    (ca.pubKey = PublicKey.ecdsa k → env.marshalPKIX k = Except.ok kb →
      (env.sha256 (env.sha256 kb)).length = 32 →
      PeerIdentityFromCerts env leaf ca rest =
        Except.ok
          { restChain := rest, ca := ca, leaf := leaf
            id := { bytes := env.sha256 (env.sha256 kb) } })
    ∧ (∀ tag : Nat, ca.pubKey = PublicKey.other tag →
        PeerIdentityFromCerts env leaf ca rest =
          Except.error (GoErr.nodeIDKeyType tag)) := by
  constructor
  · intro hk hm hlen
    simp [PeerIdentityFromCerts, hk, NodeIDFromKey, NodeIDFromECDSAKey, hm,
      NodeIDFromBytes, hlen]
  · intro tag hk
    simp [PeerIdentityFromCerts, hk, NodeIDFromKey]

/-- A self-issued certificate carrying an ECDSA key, for closed evaluation. -/
def selfCert : Certificate := { raw := [2], pubKey := PublicKey.ecdsa 2 }

theorem peerIdentityFromCerts_spec_witness :
    PeerIdentityFromCerts testEnv dfltCert selfCert [] =
      Except.ok
        { restChain := [], ca := selfCert, leaf := dfltCert
          id := { bytes := List.replicate 32 1 } } :=
  (peerIdentityFromCerts_spec testEnv dfltCert selfCert [] 2 [2]).1
    rfl rfl (by decide)

/-- peertls.PeerCertVerificationFunc: raw chain bytes and parsed chains to an
optional error (`none` means the verification step accepts). -/
abbrev PCVFunc := List Bytes → List (List Certificate) → Option GoErr

/-- Modelled from the spec (§4.5): peertls.VerifyPeerFunc (pkg/peertls, not
under src/): the verification functions run in the given order and the first
failure aborts with that error. -/
def VerifyPeerFunc : List PCVFunc → PCVFunc
  | [], _, _ => none
  | f :: rest, raw, parsed =>
    match f raw parsed with
    | some e => some e
    | none => VerifyPeerFunc rest raw parsed

/-- Modelled from the spec (§4.5): the chain-signature walk of
peertls.VerifyPeerCertChains (pkg/peertls, not under src/): every certificate
must be signed by its successor and the terminal certificate must be
self-signed. -/
def verifySelfSignedChain (env : Env) : List Certificate → Option GoErr
  | [] => some GoErr.emptyChain
  | [c] => env.checkSignatureFrom c c
  | c :: parent :: rest =>
    match env.checkSignatureFrom c parent with
    | some e => some e
    | none => verifySelfSignedChain env (parent :: rest)

/-- Modelled from the spec (§4.5): peertls.VerifyPeerCertChains (pkg/peertls,
not under src/), applied to the first parsed chain. -/
def VerifyPeerCertChains (env : Env) : PCVFunc := fun _raw parsedChains =>
  verifySelfSignedChain env (parsedChains.getD 0 [])

/-- identity.go:280-287 `RestChainRaw`. -/
def FullIdentity.RestChainRaw (fi : FullIdentity) : List Bytes :=
  fi.restChain.map Certificate.raw

/-- The parts of Go `tls.Config` that `ServerOption` and `DialOption`
populate.  peertls.TLSCert and the grpc credential wrappers (repository code
not under src/) only package this configuration, so the configuration itself
is the modelled result. -/
structure TLSConfig where
  certChain : List Bytes
  insecureSkipVerify : Bool
  requireAnyClientCert : Bool
  verifyPeerCertificate : PCVFunc

/-- identity.go:289-313 `ServerOption`: presents `[Leaf, CA, ...RestChain]`
and installs chain-signature validation followed by the caller-supplied
verification functions. -/
def ServerOption (env : Env) (fi : FullIdentity) (pcvFuncs : List PCVFunc) :
    TLSConfig :=
  let ch := [fi.leaf.raw, fi.ca.raw] ++ fi.RestChainRaw
  { certChain := ch
    insecureSkipVerify := true
    requireAnyClientCert := true
    verifyPeerCertificate := VerifyPeerFunc (VerifyPeerCertChains env :: pcvFuncs) }

/-- identity.go:338-356 `verifyIdentity`: the NodeID-pinning verification
function.  Go indexes `parsedChains[0][0]` and `[0][1]` without bounds
checks; the `getD` defaults are only reached in that out-of-model case. -/
def verifyIdentity (env : Env) (id : NodeID) : PCVFunc := fun _raw parsedChains =>
  if id = NodeID.zero then none
  else
    let chain0 := parsedChains.getD 0 []
    match PeerIdentityFromCerts env (chain0.getD 0 dfltCert)
        (chain0.getD 1 dfltCert) (chain0.drop 2) with
    | Except.error e => some e
    | Except.ok peer =>
      if peer.id.encode ≠ id.encode then some GoErr.peerMismatch else none

/-- identity.go:315-336 `DialOption`: presents the same chain and installs
chain-signature validation followed by NodeID pinning. -/
def DialOption (env : Env) (fi : FullIdentity) (id : NodeID) : TLSConfig :=
  let ch := [fi.leaf.raw, fi.ca.raw] ++ fi.RestChainRaw
  { certChain := ch
    insecureSkipVerify := true
    requireAnyClientCert := false
    verifyPeerCertificate := VerifyPeerFunc [VerifyPeerCertChains env, verifyIdentity env id] }

lemma verifyPeerFunc_all_none (raw : List Bytes) (parsed : List (List Certificate)) :
    ∀ fs : List PCVFunc, (∀ g ∈ fs, g raw parsed = none) →
      VerifyPeerFunc fs raw parsed = none := by
  intro fs
  induction fs with
  | nil => intro _; rfl
  | cons f rest ih =>
    intro h
    have hf : f raw parsed = none := h f (List.mem_cons_self f rest)
    simp [VerifyPeerFunc, hf]
    exact ih (fun g hg => h g (List.mem_cons_of_mem f hg))

lemma verifyPeerFunc_append_none (raw : List Bytes) (parsed : List (List Certificate))
    (fs₁ fs₂ : List PCVFunc) (h : ∀ g ∈ fs₁, g raw parsed = none) :
    VerifyPeerFunc (fs₁ ++ fs₂) raw parsed = VerifyPeerFunc fs₂ raw parsed := by
  induction fs₁ with
  | nil => rfl
  | cons f rest ih =>
    have hf : f raw parsed = none := h f (List.mem_cons_self f rest)
    simp only [List.cons_append, VerifyPeerFunc, hf]
    exact ih (fun g hg => h g (List.mem_cons_of_mem f hg))

/-- C3: the pipeline installed by ServerOption runs chain-signature
validation first (its failure decides the outcome whatever the caller
functions are, so later functions do not run); when it passes, the
caller-supplied functions run in order and the first to fail aborts with its
error (functions after it do not affect the result); when everything passes
the pipeline accepts.  DialOption installs the same pipeline with NodeID
pinning as the single appended function. -/
theorem serverOption_pipeline_spec (env : Env) (fi : FullIdentity)
    (raw : List Bytes) (parsed : List (List Certificate)) :
    (∀ (fs fs' : List PCVFunc) (e : GoErr),
        VerifyPeerCertChains env raw parsed = some e →
        (ServerOption env fi fs).verifyPeerCertificate raw parsed = some e
        ∧ (ServerOption env fi fs).verifyPeerCertificate raw parsed
            = (ServerOption env fi fs').verifyPeerCertificate raw parsed)
    ∧ (∀ (fs₁ fs₂ : List PCVFunc) (f : PCVFunc) (e : GoErr),
        VerifyPeerCertChains env raw parsed = none →
        (∀ g ∈ fs₁, g raw parsed = none) → f raw parsed = some e →
        (ServerOption env fi (fs₁ ++ f :: fs₂)).verifyPeerCertificate raw parsed = some e)
    ∧ (∀ fs : List PCVFunc,
        VerifyPeerCertChains env raw parsed = none →
        (∀ g ∈ fs, g raw parsed = none) →
        (ServerOption env fi fs).verifyPeerCertificate raw parsed = none)
    ∧ (∀ id : NodeID,
        (DialOption env fi id).verifyPeerCertificate raw parsed =
          match VerifyPeerCertChains env raw parsed with
          | some e => some e
          | none => verifyIdentity env id raw parsed) := by
  refine ⟨?_, ?_, ?_, ?_⟩
  · intro fs fs' e hfail
    constructor
    · simp [ServerOption, VerifyPeerFunc, hfail]
    · simp [ServerOption, VerifyPeerFunc, hfail]
  · intro fs₁ fs₂ f e hok hnone hf
    show VerifyPeerFunc (VerifyPeerCertChains env :: (fs₁ ++ f :: fs₂)) raw parsed = some e
    simp only [VerifyPeerFunc, hok]
    rw [verifyPeerFunc_append_none raw parsed fs₁ (f :: fs₂) hnone]
    simp [VerifyPeerFunc, hf]
  · intro fs hok hnone
    show VerifyPeerFunc (VerifyPeerCertChains env :: fs) raw parsed = none
    simp only [VerifyPeerFunc, hok]
    exact verifyPeerFunc_all_none raw parsed fs hnone
  · intro id
    show VerifyPeerFunc [VerifyPeerCertChains env, verifyIdentity env id] raw parsed = _
    cases hvc : VerifyPeerCertChains env raw parsed with
    | none =>
      simp only [VerifyPeerFunc, hvc]
      cases hvi : verifyIdentity env id raw parsed <;> simp [VerifyPeerFunc, hvi]
    | some e => simp [VerifyPeerFunc, hvc]

/-- A verification function that always accepts. -/
def fOk : PCVFunc := fun _ _ => none

/-- A verification function that always rejects with a recognizable error. -/
def fBad : PCVFunc := fun _ _ => some (GoErr.external 5)

/-- A concrete full identity for closed evaluation. -/
def testFi : FullIdentity :=
  { restChain := [], ca := selfCert, leaf := selfCert
    id := { bytes := List.replicate 32 1 }, key := 0 }

theorem serverOption_pipeline_spec_witness :
    (ServerOption testEnv testFi ([fOk] ++ fBad :: [])).verifyPeerCertificate
        [] [[selfCert]] = some (GoErr.external 5)
    ∧ (ServerOption testEnv testFi [fOk]).verifyPeerCertificate [] [[selfCert]] = none :=
  ⟨(serverOption_pipeline_spec testEnv testFi [] [[selfCert]]).2.1 [fOk] [] fBad
      (GoErr.external 5) rfl
      (by intro g hg; rw [List.mem_singleton] at hg; rw [hg]; rfl) rfl,
   (serverOption_pipeline_spec testEnv testFi [] [[selfCert]]).2.2.1 [fOk] rfl
      (by intro g hg; rw [List.mem_singleton] at hg; rw [hg]; rfl)⟩

/-- C4: the pinning function accepts immediately when the target NodeID is
the zero value (for every chain, parsed or garbage); for a non-zero target it
extracts a PeerIdentity from the first parsed chain and rejects with the
identity-mismatch error exactly when the derived peer ID differs from the
target, and it propagates a PeerIdentity extraction error. -/
theorem verifyIdentity_spec (env : Env) (id : NodeID) (raw : List Bytes)
    (parsed : List (List Certificate)) :
    (id = NodeID.zero → verifyIdentity env id raw parsed = none)
    ∧ (∀ peer : PeerIdentity, id ≠ NodeID.zero →
        PeerIdentityFromCerts env ((parsed.getD 0 []).getD 0 dfltCert)
            ((parsed.getD 0 []).getD 1 dfltCert) ((parsed.getD 0 []).drop 2)
          = Except.ok peer →
        ((verifyIdentity env id raw parsed = none ↔ peer.id = id)
         ∧ (verifyIdentity env id raw parsed = some GoErr.peerMismatch ↔ peer.id ≠ id)))
    ∧ (∀ e : GoErr, id ≠ NodeID.zero →
        PeerIdentityFromCerts env ((parsed.getD 0 []).getD 0 dfltCert)
            ((parsed.getD 0 []).getD 1 dfltCert) ((parsed.getD 0 []).drop 2)
          = Except.error e →
        verifyIdentity env id raw parsed = some e) := by
  refine ⟨?_, ?_, ?_⟩
  · intro hz
    simp [verifyIdentity, hz]
  · intro peer hnz hok
    simp only [List.getD_eq_getElem?_getD] at hok
    have henc : (peer.id.encode = id.encode) ↔ peer.id = id := by
      cases peer.id with
      | mk b1 => cases id with
        | mk b2 => simp [NodeID.encode]
    constructor
    · constructor
      · intro h
        by_contra hne
        have : peer.id.encode ≠ id.encode := fun hh => hne (henc.mp hh)
        simp [verifyIdentity, hnz, hok, this] at h
      · intro h
        have : ¬ peer.id.encode ≠ id.encode := fun hh => hh (henc.mpr h)
        simp [verifyIdentity, hnz, hok, this]
    · constructor
      · intro h
        intro heq
        have : ¬ peer.id.encode ≠ id.encode := fun hh => hh (henc.mpr heq)
        simp [verifyIdentity, hnz, hok, this] at h
      · intro hne
        have : peer.id.encode ≠ id.encode := fun hh => hne (henc.mp hh)
        simp [verifyIdentity, hnz, hok, this]
  · intro e hnz herr
    simp only [List.getD_eq_getElem?_getD] at herr
    simp [verifyIdentity, hnz, herr]

theorem verifyIdentity_spec_witness :
    verifyIdentity testEnv { bytes := List.replicate 32 1 } [] [[selfCert, selfCert]] = none
    ∧ verifyIdentity testEnv NodeID.zero [] [] = none :=
  ⟨((verifyIdentity_spec testEnv { bytes := List.replicate 32 1 } [] [[selfCert, selfCert]]).2.1
      { restChain := [], ca := selfCert, leaf := selfCert
        id := { bytes := List.replicate 32 1 } }
      (by decide) (by decide)).1.mpr rfl,
   (verifyIdentity_spec testEnv NodeID.zero [] []).1 rfl⟩

/-- The fields of identity.FullCertificateAuthority (pkg/identity CA code,
not under src/) used by the verify command: the self-signed root certificate
and the optional rest chain (§3 of the spec). -/
structure FullCertificateAuthority where
  cert : Certificate
  restChain : List Certificate
  deriving DecidableEq, Repr

/-- Modelled from the spec: `FullCertificateAuthority.RestChainRaw`
(pkg/identity CA code, not under src/), analogous to the in-src
`FullIdentity.RestChainRaw`: the raw bytes of the rest chain in order. -/
def FullCertificateAuthority.RestChainRaw (ca : FullCertificateAuthority) :
    List Bytes :=
  ca.restChain.map Certificate.raw

/-- cmd/storagenode `checkOpts` restricted to the fields the checks read; the
shared `errs.Group` accumulator is modelled by returning the list of errors
each check adds. -/
structure CheckOpts where
  ca : FullCertificateAuthority
  ident : FullIdentity
  deriving DecidableEq, Repr

/-- The loop of `checkIdentContainsCA` (cmd/storagenode entrypoint:135-146):
walk the CA chain bytes with index `i`, compare position `i` of the CA chain
with position `j = i+1` of the identity chain bytes; a length equality stops
the walk with a length error; a byte mismatch records the index pair and
continues. -/
def identContainsCALoop (identChainBytes : List Bytes) (fmt : String) :
    List Bytes → Nat → List GoErr
  | [], _ => []
  | caCert :: rest, i =>
    let j := i + 1
    if identChainBytes.length = j then [GoErr.verifyLen fmt]
    else if identChainBytes.getD j [] ≠ caCert then
      GoErr.verifyIdx fmt j i :: identContainsCALoop identChainBytes fmt rest (i + 1)
    else identContainsCALoop identChainBytes fmt rest (i + 1)

/-- cmd/storagenode entrypoint:126-147 `checkIdentContainsCA`.  Note that the
source builds `identChainBytes` from `opts.ca.RestChainRaw()` (the CA's rest
chain), not from the identity's own rest chain. -/
def checkIdentContainsCA (opts : CheckOpts) (errFmt : String) : List GoErr :=
  let identChainBytes := [opts.ident.leaf.raw, opts.ident.ca.raw] ++ opts.ca.RestChainRaw
  let caChainBytes := [opts.ca.cert.raw] ++ opts.ca.RestChainRaw
  identContainsCALoop identChainBytes errFmt caChainBytes 0

/-- cmd/storagenode entrypoint:149-162 `verifyChain`: check each certificate
against its successor; the first signature failure is recorded and stops the
walk; the terminal certificate is never checked against anything. -/
def verifyChain (env : Env) (errFormat : String) : List Certificate → List GoErr
  | [] => []
  | [_] => []
  | cert :: parent :: rest =>
    match env.checkSignatureFrom cert parent with
    | some e => [GoErr.sigFrom errFormat e]
    | none => verifyChain env errFormat (parent :: rest)

/-- cmd/storagenode entrypoint:109-116 `checkIdentChain`. -/
def checkIdentChain (env : Env) (opts : CheckOpts) (errFmt : String) : List GoErr :=
  verifyChain env errFmt ([opts.ident.leaf, opts.ident.ca] ++ opts.ident.restChain)

/-- cmd/storagenode entrypoint:118-124 `checkCAChain`. -/
def checkCAChain (env : Env) (opts : CheckOpts) (errFmt : String) : List GoErr :=
  verifyChain env errFmt ([opts.ca.cert] ++ opts.ca.restChain)

/-- The error-format tag of the identity-contains-CA check (entrypoint:89). -/
def identContainsCAFmt : String := "identity chain must contain CA chain"

/-- The error-format tag of the identity-chain-validity check (entrypoint:93). -/
def identChainFmt : String := "identity chain must be valid"

/-- The error-format tag of the CA-chain-validity check (entrypoint:97). -/
def caChainFmt : String := "CA chain must be valid"

/-- The `checks` table of `cmdVerify` (entrypoint:84-100), in source order. -/
def cmdVerifyChecks (env : Env) : List (String × (CheckOpts → String → List GoErr)) :=
  [(identContainsCAFmt, checkIdentContainsCA),
   (identChainFmt, checkIdentChain env),
   (caChainFmt, checkCAChain env)]

/-- cmd/storagenode entrypoint:102-106: run every check, accumulating into
one group, then return `errGroup.Err()` (which is nil exactly when no check
added an error, and otherwise the combined error list). -/
def cmdVerify (env : Env) (opts : CheckOpts) : Option (List GoErr) :=
  let acc := (cmdVerifyChecks env).foldl (fun acc check => acc ++ check.2 opts check.1) []
  if acc = [] then none else some acc

/-- C6: the verify command runs all three checks whatever any of them
report: its accumulated error list is always the concatenation of the three
checks' errors in order, and the overall result is nil exactly when all
three checks pass, otherwise the combination of every accumulated failure. -/
theorem cmdVerify_runs_all_checks (env : Env) (opts : CheckOpts) :
    (cmdVerify env opts =
      if checkIdentContainsCA opts identContainsCAFmt
          ++ checkIdentChain env opts identChainFmt
          ++ checkCAChain env opts caChainFmt = [] then none
      else some (checkIdentContainsCA opts identContainsCAFmt
          ++ checkIdentChain env opts identChainFmt
          ++ checkCAChain env opts caChainFmt))
    ∧ (cmdVerify env opts = none ↔
        (checkIdentContainsCA opts identContainsCAFmt = []
         ∧ checkIdentChain env opts identChainFmt = []
         ∧ checkCAChain env opts caChainFmt = [])) := by
  have hfold : (cmdVerifyChecks env).foldl (fun acc check => acc ++ check.2 opts check.1) []
      = checkIdentContainsCA opts identContainsCAFmt
          ++ checkIdentChain env opts identChainFmt
          ++ checkCAChain env opts caChainFmt := by
    simp [cmdVerifyChecks, List.foldl]
  have hmain : cmdVerify env opts =
      if checkIdentContainsCA opts identContainsCAFmt
          ++ checkIdentChain env opts identChainFmt
          ++ checkCAChain env opts caChainFmt = [] then none
      else some (checkIdentContainsCA opts identContainsCAFmt
          ++ checkIdentChain env opts identChainFmt
          ++ checkCAChain env opts caChainFmt) := by
    simp only [cmdVerify, hfold]
  refine ⟨hmain, ?_⟩
  rw [hmain]
  by_cases hc : checkIdentContainsCA opts identContainsCAFmt
      ++ checkIdentChain env opts identChainFmt
      ++ checkCAChain env opts caChainFmt = []
  · rw [if_pos hc]
    simp only [List.append_eq_nil] at hc
    simp [hc.1.1, hc.1.2, hc.2]
  · rw [if_neg hc]
    constructor
    · intro h
      exact Option.noConfusion h
    · intro h
      have hnil : checkIdentContainsCA opts identContainsCAFmt
          ++ checkIdentChain env opts identChainFmt
          ++ checkCAChain env opts caChainFmt = [] := by
        rw [h.1, h.2.1, h.2.2]
        rfl
      exact absurd hnil hc

/-- The containment property exactly as the claim states it: the identity
chain `[Leaf, CA, ...RestChain]` with its leaf and CA stripped must equal,
byte for byte at corresponding positions, the chain `[CACert]` followed by
`CARestChain`. -/
def specIdentContainsCA (opts : CheckOpts) : Prop :=
  opts.ident.restChain.map Certificate.raw = [opts.ca.cert.raw] ++ opts.ca.RestChainRaw

/-- A certificate distinct from `selfCert` in its raw bytes. -/
def otherCert : Certificate := { raw := [9], pubKey := PublicKey.other 0 }

/-- Concrete inputs on which the code and the stated claim disagree: the
identity has an empty rest chain and its CA certificate equals the CA's root,
so stripping leaf and CA leaves `[]`, which differs from the CA chain
`[CACert]` — yet the check reports no failure. -/
def cexOpts : CheckOpts :=
  { ca := { cert := selfCert, restChain := [] }
    ident := { restChain := [], ca := selfCert, leaf := otherCert
               id := NodeID.zero, key := 0 } }

theorem checkIdentContainsCA_counterexample :
    checkIdentContainsCA cexOpts identContainsCAFmt = []
    ∧ ¬ specIdentContainsCA cexOpts := by
  constructor
  · rfl
  · unfold specIdentContainsCA
    decide

lemma identContainsCALoop_aligned (l : List Bytes) (fmt : String) :
    ∀ (rest : List Bytes) (k : Nat), l.drop (k + 1) = rest →
      identContainsCALoop l fmt rest k = [] := by
  intro rest
  induction rest with
  | nil => intro k _; rfl
  | cons c rest' ih =>
    intro k h
    have hlen : l.length - (k + 1) = rest'.length + 1 := by
      have := List.length_drop (k + 1) l
      rw [h] at this
      simpa using this.symm
    have hne : ¬ l.length = k + 1 := by omega
    have hget : l.getD (k + 1) [] = c := by
      have h0 : l[k + 1]? = some c := by
        have := List.getElem?_drop l (k + 1) 0
        rw [h] at this
        simpa using this.symm
      simp [List.getD_eq_getElem?_getD, h0]
    have hdrop : l.drop (k + 1 + 1) = rest' := by
      have : (l.drop (k + 1)).drop 1 = rest' := by rw [h]; rfl
      simpa [List.drop_drop, Nat.add_comm] using this
    have hcc : ¬ (l.getD (k + 1) [] ≠ c) := by
      rw [hget]
      exact fun hh => hh rfl
    simp only [identContainsCALoop]
    rw [if_neg hne, if_neg hcc]
    exact ih (k + 1) hdrop

/-- C5 amended: because `checkIdentContainsCA` rebuilds the identity chain
bytes with the CA's rest chain and strips only the leaf, every comparison
beyond the first is between identical bytes; the check therefore succeeds
exactly when the identity's CA certificate byte-equals the CA's root
certificate, and a mismatch is reported once, naming index pair (1, 0). -/
theorem checkIdentContainsCA_amended (opts : CheckOpts) (errFmt : String) :
    checkIdentContainsCA opts errFmt =
      if opts.ident.ca.raw = opts.ca.cert.raw then []
      else [GoErr.verifyIdx errFmt 1 0] := by
  unfold checkIdentContainsCA
  have htail : identContainsCALoop
      ([opts.ident.leaf.raw, opts.ident.ca.raw] ++ opts.ca.RestChainRaw) errFmt
      opts.ca.RestChainRaw 1 = [] := by
    apply identContainsCALoop_aligned
    rfl
  have hlen2 : ¬ ([opts.ident.leaf.raw, opts.ident.ca.raw] ++ opts.ca.RestChainRaw).length = 1 := by
    simp [List.length_append]
  have hget1 : ([opts.ident.leaf.raw, opts.ident.ca.raw] ++ opts.ca.RestChainRaw).getD 1 []
      = opts.ident.ca.raw := rfl
  by_cases heq : opts.ident.ca.raw = opts.ca.cert.raw
  · rw [if_pos heq]
    have hcond : ¬ (([opts.ident.leaf.raw, opts.ident.ca.raw]
        ++ opts.ca.RestChainRaw).getD 1 [] ≠ opts.ca.cert.raw) := by
      rw [hget1]
      exact fun hh => hh heq
    simp only [List.singleton_append, identContainsCALoop]
    rw [if_neg hlen2, if_neg hcond]
    exact htail
  · rw [if_neg heq]
    have hcond : ([opts.ident.leaf.raw, opts.ident.ca.raw]
        ++ opts.ca.RestChainRaw).getD 1 [] ≠ opts.ca.cert.raw := by
      rw [hget1]
      exact heq
    simp only [List.singleton_append, identContainsCALoop]
    rw [if_neg hlen2, if_pos hcond]
    exact congrArg (fun t => GoErr.verifyIdx errFmt 1 0 :: t) htail

lemma verifyChain_eq_nil_iff (env : Env) (fmt : String) :
    ∀ chain : List Certificate,
      (verifyChain env fmt chain = [] ↔
        ∀ i : Nat, i + 1 < chain.length →
          env.checkSignatureFrom (chain.getD i dfltCert) (chain.getD (i + 1) dfltCert) = none) := by
  intro chain
  induction chain with
  | nil => simp [verifyChain]
  | cons c tail ih =>
    cases tail with
    | nil => simp [verifyChain]
    | cons p rest =>
      cases hsig : env.checkSignatureFrom c p with
      | some e =>
        simp only [verifyChain, hsig]
        constructor
        · intro h; exact absurd h (by simp)
        · intro h
          have h0 := h 0 (by simp)
          simp [List.getD] at h0
          rw [hsig] at h0
          exact absurd h0 (by simp)
      | none =>
        simp only [verifyChain, hsig]
        rw [ih]
        constructor
        · intro h i hi
          cases i with
          | zero => simp [List.getD, hsig]
          | succ n =>
            have hn : n + 1 < (p :: rest).length := by
              simp at hi
              simp
              omega
            simpa [List.getD] using h n hn
        · intro h i hi
          have hn : i + 1 + 1 < (c :: p :: rest).length := by
            simp at hi ⊢
            omega
          simpa [List.getD] using h (i + 1) hn

/-- C7: the identity-chain-validity check reports a failure exactly when some
adjacent pair of `[Leaf, CA, ...RestChain]` fails signature verification of
the child against its successor; only adjacent pairs are consulted, so the
terminal certificate's own signature is never checked, and the general
`verifyChain` walk over any chain passes exactly when every adjacent pair
verifies. -/
theorem checkIdentChain_spec (env : Env) (opts : CheckOpts) (errFmt : String)
    (chain : List Certificate) :
    (checkIdentChain env opts errFmt = [] ↔
      ∀ i : Nat, i + 1 < ([opts.ident.leaf, opts.ident.ca] ++ opts.ident.restChain).length →
        env.checkSignatureFrom
            (([opts.ident.leaf, opts.ident.ca] ++ opts.ident.restChain).getD i dfltCert)
            (([opts.ident.leaf, opts.ident.ca] ++ opts.ident.restChain).getD (i + 1) dfltCert)
          = none)
    ∧ (verifyChain env errFmt chain = [] ↔
        ∀ i : Nat, i + 1 < chain.length →
          env.checkSignatureFrom (chain.getD i dfltCert) (chain.getD (i + 1) dfltCert) = none) :=
  ⟨verifyChain_eq_nil_iff env errFmt _, verifyChain_eq_nil_iff env errFmt chain⟩

/-- File paths (Go strings) as lists of characters. -/
abbrev Path := List Char

/-- Go `filepath.Ext` helper: scan the reversed path from its end; stop empty
at a path separator or at exhaustion, return the dot plus the scanned
characters at the final dot. -/
def filepathExtAux (acc : Path) : List Char → Path
  | [] => []
  | c :: rest =>
    if c = '/' then []
    else if c = '.' then '.' :: acc
    else filepathExtAux (c :: acc) rest

/-- Go standard library `filepath.Ext`: the suffix beginning at the final dot
in the final path element, empty if there is none. -/
def filepathExt (p : Path) : Path := filepathExtAux [] p.reverse

/-- Go standard library `strings.TrimSuffix`. -/
def stringTrimSuffix (s suf : Path) : Path :=
  if suf.isSuffixOf s then s.take (s.length - suf.length) else s

/-- Go `strconv.Itoa` on the nonnegative Unix timestamps of the modelled
era. -/
def natToChars (n : Nat) : Path := Nat.toDigits 10 n

/-- identity.go:358-367 `backupPath`: insert a dot and the Unix timestamp
between the base name and the file extension.  The Go source reads
`time.Now().Unix()` itself; that ambient clock value is passed in as `now`. -/
def backupPath (now : Nat) (path : Path) : Path :=
  let pathExt := filepathExt path
  let base := stringTrimSuffix path pathExt
  base ++ ( '.' :: natToChars now) ++ pathExt

/-- What a save operation writes to a file: either an encoded certificate
chain or encoded private-key material.  peertls.WriteChain / WriteKey and the
file writers (repository code not under src/) are modelled per §4.3 of the
spec as writing these contents to the named paths. -/
inductive FileContent where
  | chainData (chain : List Certificate)
  | keyData (key : Nat)
  deriving DecidableEq, Repr

/-- identity.go:67-72 `Config`: the two persistence paths. -/
structure Config where
  certPath : Path
  keyPath : Path
  deriving DecidableEq, Repr

/-- identity.go:242-271 `Config.Save`, modelled by the list of writes it
performs: the chain `[Leaf, CA, ...RestChain]` goes to the certificate path
and the key to the key path; an empty path is skipped (Go `!= ""` guards). -/
def Config.Save (ic : Config) (fi : FullIdentity) : List (Path × FileContent) :=
  (if ic.certPath ≠ [] then
      [(ic.certPath, FileContent.chainData ([fi.leaf, fi.ca] ++ fi.restChain))]
    else [])
  ++ (if ic.keyPath ≠ [] then [(ic.keyPath, FileContent.keyData fi.key)] else [])

/-- identity.go:273-278 `SaveBackup`: save with a derived config whose
certificate path is the timestamped backup path and whose key path is the
string zero value. -/
def Config.SaveBackup (now : Nat) (ic : Config) (fi : FullIdentity) :
    List (Path × FileContent) :=
  Config.Save { certPath := backupPath now ic.certPath, keyPath := [] } fi

lemma backupPath_length_gt (now : Nat) (p : Path) :
    p.length < (backupPath now p).length := by
  simp only [backupPath, stringTrimSuffix]
  by_cases h : (filepathExt p).isSuffixOf p
  · rw [if_pos h]
    simp only [List.length_append, List.length_take, List.length_cons]
    omega
  · rw [if_neg h]
    simp only [List.length_append, List.length_cons]
    omega

/-- C9: SaveBackup writes exactly one file: the certificate chain, to the
path derived from the primary certificate path by inserting the timestamp
before the extension; that path differs from the primary certificate path,
the key path is never written (it is the zero value, which Save skips), and
no key material appears among the writes. -/
theorem saveBackup_spec (now : Nat) (ic : Config) (fi : FullIdentity) :
    (Config.SaveBackup now ic fi =
      [(backupPath now ic.certPath,
        FileContent.chainData ([fi.leaf, fi.ca] ++ fi.restChain))])
    ∧ backupPath now ic.certPath ≠ ic.certPath
    ∧ (∀ pc ∈ Config.SaveBackup now ic fi, ∀ k : Nat, pc.2 ≠ FileContent.keyData k) := by
  have hne : backupPath now ic.certPath ≠ [] := by
    intro h
    have hlt := backupPath_length_gt now ic.certPath
    rw [h] at hlt
    simp at hlt
  have hmain : Config.SaveBackup now ic fi =
      [(backupPath now ic.certPath,
        FileContent.chainData ([fi.leaf, fi.ca] ++ fi.restChain))] := by
    simp [Config.SaveBackup, Config.Save, hne]
  refine ⟨hmain, ?_, ?_⟩
  · intro h
    have hlt := backupPath_length_gt now ic.certPath
    rw [h] at hlt
    exact absurd hlt (lt_irrefl _)
  · intro pc hpc k
    rw [hmain] at hpc
    rw [List.mem_singleton] at hpc
    rw [hpc]
    intro hbad
    exact FileContent.noConfusion hbad

end StorjSpec
